import Mathlib

/-!
Shallow embedding of the calendar utilities in `src/core-js-dates-tasks.js`.

Dates are modelled at day granularity: a JS `Date` holding a midnight
instant is represented by its day number (days since 0000-03-01 in the
proleptic Gregorian calendar).  JS `new Date(y, m, d)` with its day-overflow
normalisation is then plain day-number arithmetic, and comparison of `Date`
objects is comparison of day numbers.  Loops from the source are embedded
with explicit fuel; `none` models a run that does not terminate within the
fuel.
-/

namespace CoreJsDates

/-- Day number of the Gregorian date `(y, m, d)` (month `1..12`), counted
from 0000-03-01 = day 0.  Standard days-from-civil computation. -/
def ratadie (y m d : Nat) : Nat :=
  let yAdj := if m ≤ 2 then y - 1 else y
  let mp := (m + 9) % 12
  365 * yAdj + yAdj / 4 - yAdj / 100 + yAdj / 400 + (153 * mp + 2) / 5 + d - 1

/-- Inverse of `ratadie`: the Gregorian `(year, month, day)` of a day
number.  Standard civil-from-days computation. -/
def civilFromDays (n : Nat) : Nat × Nat × Nat :=
  let era := n / 146097
  let doe := n % 146097
  let yoe := (doe - doe / 1460 + doe / 36524 - doe / 146096) / 365
  let yAdj := era * 400 + yoe
  let doy := doe - (365 * yoe + yoe / 4 - yoe / 100)
  let mp := (5 * doy + 2) / 153
  let d := doy - (153 * mp + 2) / 5 + 1
  let m := if mp < 10 then mp + 3 else mp - 9
  (if m ≤ 2 then yAdj + 1 else yAdj, m, d)

/-- JS `Date.prototype.getDay` / `getUTCDay` on a day number:
0 = Sunday .. 6 = Saturday.  Day 0 (0000-03-01) is a Wednesday. -/
def jsDay (n : Nat) : Nat := (n + 3) % 7

/-- Day-of-month of a day number (JS `getDate`). -/
def jsDate (n : Nat) : Nat := (civilFromDays n).2.2

/-- A `{start, end}` period of date strings, as taken by `isDateInPeriod`
and `getWorkSchedule`. -/
structure DatePeriod where
  start : String
  «end» : String

/-- JS `s.split('-')` on the character list of a string. -/
def splitOnDash : List Char → List (List Char)
  | [] => [[]]
  | c :: cs =>
    if c = '-' then [] :: splitOnDash cs
    else
      match splitOnDash cs with
      | [] => [[c]]
      | p :: ps => (c :: p) :: ps

/-- JS numeric coercion of a digit string (well-formed inputs only reach
digit characters). -/
def digitsVal : List Char → Nat → Nat
  | [], acc => acc
  | c :: cs, acc => digitsVal cs (acc * 10 + (c.toNat - 48))

/-- Numeric value of one `split('-')` field. -/
def natOf (cs : List Char) : Nat := digitsVal cs 0

/-- Parse an ISO `YYYY-MM-DD` date string to its day number, the
day-granularity image of JS `new Date(s)` for date-only ISO strings. -/
def parseISO (s : String) : Nat :=
  let parts := splitOnDash s.data
  ratadie (natOf (parts.getD 0 [])) (natOf (parts.getD 1 [])) (natOf (parts.getD 2 []))

/-- Parse a `DD-MM-YYYY` string to its day number, the image of
`getWorkSchedule`'s `start.split('-')` plus `new Date(y, m-1, d)`. -/
def parseDDMMYYYY (s : String) : Nat :=
  let parts := splitOnDash s.data
  ratadie (natOf (parts.getD 2 [])) (natOf (parts.getD 1 [])) (natOf (parts.getD 0 []))

/-- `isDateInPeriod` (source lines 157-164): compares the three parsed
instants with `start <= date <= end`. -/
def isDateInPeriod (date : String) (period : DatePeriod) : Bool :=
  decide (parseISO period.start ≤ parseISO date) &&
    decide (parseISO date ≤ parseISO period.«end»)

/-- Zero-padding to two digits via the source's
`String(x).length < 2 ? '0'+x : x` pattern. -/
def pad2 (n : Nat) : String :=
  if (toString n).length < 2 then "0" ++ toString n else toString n

/-- `formatDate` (source lines 179-204) on the UTC components that
`new Date(date)` plus the `getUTC*` getters extract: `month` is 0-indexed
as `getUTCMonth` returns it. -/
def formatDate (month day year hours minutes seconds : Nat) : String :=
  let minutesS := pad2 minutes
  let secondsS := pad2 seconds
  let time :=
    if hours > 12 then toString (hours - 12) ++ ":" ++ minutesS ++ ":" ++ secondsS ++ " PM"
    else if hours = 12 then toString hours ++ ":" ++ minutesS ++ ":" ++ secondsS ++ " PM"
    else toString hours ++ ":" ++ minutesS ++ ":" ++ secondsS ++ " AM"
  toString (month + 1) ++ "/" ++ toString day ++ "/" ++ toString year ++ ", " ++ time

/-- `getWeekNumberByDate` (source lines 248-259) on the date `(y, m, d)`:
days after January 1, plus January 1's weekday mapped to Monday=1..Sunday=7,
divided by 7 and rounded up (`Math.ceil` embedded as `(x + 6) / 7`). -/
def getWeekNumberByDate (y m d : Nat) : Nat :=
  let newDate := ratadie y m d
  let startOfTheYear := ratadie y 1 1
  let daysAfterStartOfTheYear := newDate - startOfTheYear
  let startOfTheWeek := if jsDay startOfTheYear = 0 then 7 else jsDay startOfTheYear
  (daysAfterStartOfTheYear + startOfTheWeek + 6) / 7

/-- The spec's formula for the week number, written with an explicit
ceiling division: days elapsed since January 1 plus the offset taking
January 1's weekday to Monday=1..Sunday=7, ceiling-divided by 7. -/
def weekNumberSpec (y m d : Nat) : Nat :=
  let elapsed := ratadie y m d - ratadie y 1 1
  let jan1 := jsDay (ratadie y 1 1)
  (elapsed + (if jan1 = 0 then 7 else jan1)) ⌈/⌉ (7 : Nat)

/-- JS weekday of an `Int` day number (used by `getNextFriday`, whose
`5 - currentDay` intermediate goes negative). -/
def jsDayI (n : Int) : Int := (n + 3) % 7

/-- `getNextFriday` (source lines 91-99) at day granularity:
`addedDays = 5 - currentDay`, plus 7 when `currentDay >= 5`, and the
result is the input advanced by `addedDays` days (the source's
`setDate(getDate() + addedDays)` under day-overflow normalisation). -/
def getNextFriday (d : Int) : Int :=
  let currentDay := jsDayI d
  let addedDays := 5 - currentDay
  let addedDays2 := if 5 ≤ currentDay then addedDays + 7 else addedDays
  d + addedDays2

/-- The scanning loop of `getNextFridayThe13th` (source lines 281-292):
candidate `new Date(year, month, givenDay)` is
`ratadie year month 1 + givenDay - 1` by overflow normalisation; stop when
the candidate is a Friday the 13th, else increment `givenDay`. -/
def fridayScan : Nat → Nat → Nat → Nat → Option Nat
  | 0, _, _, _ => none
  | fuel + 1, y, m, givenDay =>
    let nextFullDate := ratadie y m 1 + givenDay - 1
    if jsDay nextFullDate = 5 ∧ jsDate nextFullDate = 13 then some nextFullDate
    else fridayScan fuel y m (givenDay + 1)

/-- `getNextFridayThe13th` (source lines 273-294): the scan counter starts
at the input's `getDay()` (its WEEKDAY, 0..6), inside the input's
`(year, month)`.  Fuel 1000 covers every actual gap between Fridays the
13th (at most about 14 months). -/
def getNextFridayThe13th (d : Nat) : Option Nat :=
  let c := civilFromDays d
  fridayScan 1000 c.1 c.2.1 (jsDay d)

/-- `'0'+x`.slice(-2): the last two characters of a string. -/
def sliceLast2 (s : String) : String := s.drop (s.length - 2)

/-- `formatScheduleDate` (source lines 354-359): `DD-MM-YYYY` with
two-digit day and month taken via `('0' + x).slice(-2)`. -/
def formatScheduleDate (n : Nat) : String :=
  let c := civilFromDays n
  sliceLast2 ("0" ++ toString c.2.2) ++ "-" ++ sliceLast2 ("0" ++ toString c.2.1)
    ++ "-" ++ toString c.1

/-- Inner `for` loop of `getWorkSchedule` (source lines 362-365): up to
`countWorkDays` iterations, stopping early once the current day passes
`endD`; returns the advanced current day and the days emitted. -/
def wsInner : Nat → Nat → Nat → Nat × List Nat
  | 0, cur, _ => (cur, [])
  | n + 1, cur, endD =>
    if cur ≤ endD then
      let r := wsInner n (cur + 1) endD
      (r.1, cur :: r.2)
    else (cur, [])

/-- Outer `while` loop of `getWorkSchedule` (source lines 361-369), with
fuel: run the inner loop, then skip `countOffDays` days when still inside
the period.  `none` models running out of fuel (a non-terminating run). -/
def wsOuter : Nat → Nat → Nat → Nat → Nat → Option (List Nat)
  | 0, _, _, _, _ => none
  | fuel + 1, cur, endD, countWorkDays, countOffDays =>
    if cur ≤ endD then
      let r := wsInner countWorkDays cur endD
      let cur2 := if r.1 ≤ endD then r.1 + countOffDays else r.1
      (wsOuter fuel cur2 endD countWorkDays countOffDays).map (fun rest => r.2 ++ rest)
    else some []

/-- `getWorkSchedule` (source lines 344-372): parse the `DD-MM-YYYY`
endpoints, run the work/off loop, format each emitted day.  The fuel
`e - s + 2` is enough whenever the loop terminates with positive
`countWorkDays` (proved below); runs the JS would not finish give `none`. -/
def getWorkSchedule (period : DatePeriod) (countWorkDays countOffDays : Nat) :
    Option (List String) :=
  let s := parseDDMMYYYY period.start
  let e := parseDDMMYYYY period.«end»
  (wsOuter (e - s + 2) s e countWorkDays countOffDays).map (List.map formatScheduleDate)

/-! ### Lemmas about the `getWorkSchedule` loops -/

theorem wsInner_fst_le (n : Nat) : ∀ cur endD : Nat, cur ≤ (wsInner n cur endD).1 := by
  induction n with
  | zero => intro cur endD; exact Nat.le_refl _
  | succ n ih =>
    intro cur endD
    simp only [wsInner]
    split
    · exact Nat.le_trans (Nat.le_succ _) (ih (cur + 1) endD)
    · exact Nat.le_refl _

theorem wsInner_fst_lt (n cur endD : Nat) (hn : 1 ≤ n) (h : cur ≤ endD) :
    cur < (wsInner n cur endD).1 := by
  cases n with
  | zero => omega
  | succ n =>
    simp only [wsInner, if_pos h]
    exact Nat.lt_of_lt_of_le (Nat.lt_succ_self _) (wsInner_fst_le n (cur + 1) endD)

theorem wsInner_mem (n : Nat) : ∀ cur endD : Nat, ∀ x ∈ (wsInner n cur endD).2,
    cur ≤ x ∧ x ≤ endD ∧ x < (wsInner n cur endD).1 := by
  induction n with
  | zero => intro cur endD x hx; simp [wsInner] at hx
  | succ n ih =>
    intro cur endD x hx
    simp only [wsInner] at hx ⊢
    by_cases h : cur ≤ endD
    · rw [if_pos h] at hx ⊢
      simp only [List.mem_cons] at hx
      rcases hx with rfl | hx
      · exact ⟨Nat.le_refl _, h,
          Nat.lt_of_lt_of_le (Nat.lt_succ_self _) (wsInner_fst_le n (x + 1) endD)⟩
      · have := ih (cur + 1) endD x hx
        exact ⟨by omega, this.2.1, this.2.2⟩
    · rw [if_neg h] at hx
      simp at hx

theorem wsInner_pairwise (n : Nat) : ∀ cur endD : Nat,
    ((wsInner n cur endD).2).Pairwise (· < ·) := by
  induction n with
  | zero => intro cur endD; simp [wsInner]
  | succ n ih =>
    intro cur endD
    simp only [wsInner]
    split
    · refine List.Pairwise.cons ?_ (ih (cur + 1) endD)
      intro x hx
      have := wsInner_mem n (cur + 1) endD x hx
      omega
    · exact List.Pairwise.nil

theorem wsOuter_isSome (w off : Nat) (hw : 1 ≤ w) : ∀ fuel cur endD : Nat,
    endD + 1 - cur < fuel → (wsOuter fuel cur endD w off).isSome := by
  intro fuel
  induction fuel with
  | zero => intro cur endD h; omega
  | succ fuel ih =>
    intro cur endD h
    simp only [wsOuter]
    by_cases hc : cur ≤ endD
    · rw [if_pos hc]
      have h1 : cur < (wsInner w cur endD).1 := wsInner_fst_lt w cur endD hw hc
      have h2 : (wsOuter fuel
          (if (wsInner w cur endD).1 ≤ endD then (wsInner w cur endD).1 + off
            else (wsInner w cur endD).1) endD w off).isSome := by
        apply ih
        split <;> omega
      rcases Option.isSome_iff_exists.mp h2 with ⟨L, hL⟩
      rw [hL]
      rfl
    · rw [if_neg hc]
      rfl

theorem wsOuter_sound (w off : Nat) : ∀ fuel cur endD : Nat, ∀ L : List Nat,
    wsOuter fuel cur endD w off = some L →
    (∀ x ∈ L, cur ≤ x ∧ x ≤ endD) ∧ L.Pairwise (· < ·) := by
  intro fuel
  induction fuel with
  | zero => intro cur endD L h; simp [wsOuter] at h
  | succ fuel ih =>
    intro cur endD L h
    simp only [wsOuter] at h
    by_cases hc : cur ≤ endD
    · rw [if_pos hc] at h
      rcases Option.map_eq_some'.mp h with ⟨L2, hL2, rfl⟩
      have hrest := ih _ endD L2 hL2
      have hfst := wsInner_fst_le w cur endD
      have hcur2 : (wsInner w cur endD).1 ≤
          (if (wsInner w cur endD).1 ≤ endD then (wsInner w cur endD).1 + off
            else (wsInner w cur endD).1) := by
        split <;> omega
      constructor
      · intro x hx
        rcases List.mem_append.mp hx with hx | hx
        · have := wsInner_mem w cur endD x hx
          exact ⟨this.1, this.2.1⟩
        · have := (hrest.1 x hx).1
          have := (hrest.1 x hx).2
          constructor
          · have hx2 := (hrest.1 x hx).1
            omega
          · exact (hrest.1 x hx).2
      · rw [List.pairwise_append]
        refine ⟨wsInner_pairwise w cur endD, hrest.2, ?_⟩
        intro x hx y hy
        have hxlt := (wsInner_mem w cur endD x hx).2.2
        have hyge := (hrest.1 y hy).1
        omega
    · rw [if_neg hc] at h
      injection h with h
      subst h
      simp

/-! ### Claim theorems -/

/-- Claim C2: `getWorkSchedule` on the period 01-01-2024..15-01-2024 with one
work day and three off days returns exactly
`['01-01-2024','05-01-2024','09-01-2024','13-01-2024']` (the general
emit/skip loop is the definition `wsOuter`/`wsInner` above). -/
theorem getWorkSchedule_example :
    getWorkSchedule ⟨"01-01-2024", "15-01-2024"⟩ 1 3 =
      some ["01-01-2024", "05-01-2024", "09-01-2024", "13-01-2024"] := by decide

/-- Claim C3: for a period whose start is not after its end and positive
work/off counts, the `getWorkSchedule` loop terminates (the embedded fuel
suffices, so the result is `some`). -/
theorem getWorkSchedule_terminates (p : DatePeriod) (w off : Nat)
    (hse : parseDDMMYYYY p.start ≤ parseDDMMYYYY p.«end»)
    (hw : 1 ≤ w) (hoff : 1 ≤ off) :
    (getWorkSchedule p w off).isSome := by
  simp only [getWorkSchedule]
  have h := wsOuter_isSome w off hw (parseDDMMYYYY p.«end» - parseDDMMYYYY p.start + 2)
    (parseDDMMYYYY p.start) (parseDDMMYYYY p.«end») (by omega)
  rcases Option.isSome_iff_exists.mp h with ⟨L, hL⟩
  rw [hL]
  rfl

/-- Witness for C3 at the concrete example period. -/
theorem getWorkSchedule_terminates_witness :
    (getWorkSchedule ⟨"01-01-2024", "15-01-2024"⟩ 1 3).isSome :=
  getWorkSchedule_terminates ⟨"01-01-2024", "15-01-2024"⟩ 1 3 (by decide) (by decide)
    (by decide)

/-- Claim C9: every day emitted by `getWorkSchedule` lies in the inclusive
range `[start, end]` and the emitted days are strictly increasing: the
returned strings are the image under `formatScheduleDate` of a strictly
increasing list of in-range day numbers. -/
theorem getWorkSchedule_range_sorted (p : DatePeriod) (w off : Nat) (S : List String)
    (hse : parseDDMMYYYY p.start ≤ parseDDMMYYYY p.«end»)
    (hw : 1 ≤ w) (hoff : 1 ≤ off)
    (hS : getWorkSchedule p w off = some S) :
    ∃ L : List Nat, S = L.map formatScheduleDate ∧ L.Pairwise (· < ·) ∧
      ∀ x ∈ L, parseDDMMYYYY p.start ≤ x ∧ x ≤ parseDDMMYYYY p.«end» := by
  simp only [getWorkSchedule] at hS
  rcases Option.map_eq_some'.mp hS with ⟨L, hL, rfl⟩
  have h := wsOuter_sound w off _ _ _ L hL
  exact ⟨L, rfl, h.2, h.1⟩

/-- Witness for C9 at the concrete example period. -/
theorem getWorkSchedule_range_sorted_witness :
    ∃ L : List Nat,
      (["01-01-2024", "05-01-2024", "09-01-2024", "13-01-2024"] : List String) =
        L.map formatScheduleDate ∧ L.Pairwise (· < ·) ∧
      ∀ x ∈ L, parseDDMMYYYY "01-01-2024" ≤ x ∧ x ≤ parseDDMMYYYY "15-01-2024" :=
  getWorkSchedule_range_sorted ⟨"01-01-2024", "15-01-2024"⟩ 1 3
    ["01-01-2024", "05-01-2024", "09-01-2024", "13-01-2024"]
    (by decide) (by decide) (by decide) (by decide)

/-- Claim C4: `getNextFriday` returns the next Friday strictly after the
input (day 5 of the JS weekday scheme), equal to the input advanced by
`addedDays = 5 - currentDay` plus 7 when `currentDay >= 5`; a Friday input
maps to the Friday 7 days later, and no earlier Friday is skipped. -/
theorem getNextFriday_spec : ∀ d : Int,
    jsDayI (getNextFriday d) = 5 ∧
    d < getNextFriday d ∧
    getNextFriday d = d + (5 - jsDayI d + if 5 ≤ jsDayI d then 7 else 0) ∧
    (jsDayI d = 5 → getNextFriday d = d + 7) ∧
    (∀ x : Int, d < x → jsDayI x = 5 → getNextFriday d ≤ x) := by
  intro d
  by_cases h : 5 ≤ (d + 3) % 7
  · simp only [getNextFriday, jsDayI, if_pos h]
    exact ⟨by omega, by omega, trivial, fun hf => by omega, fun x hx hxf => by omega⟩
  · simp only [getNextFriday, jsDayI, if_neg h]
    exact ⟨by omega, by omega, by omega, fun hf => by omega, fun x hx hxf => by omega⟩

/-- Witness for C4: from day 0 (a Wednesday) the next Friday is day 2, no
Friday before day 2 is skipped, and from the Friday day 2 the result is
2 + 7. -/
theorem getNextFriday_spec_witness :
    jsDayI (getNextFriday 0) = 5 ∧ (0 : Int) < getNextFriday 0 ∧
    getNextFriday 0 ≤ 2 ∧ getNextFriday 2 = 2 + 7 :=
  ⟨(getNextFriday_spec 0).1, (getNextFriday_spec 0).2.1,
    (getNextFriday_spec 0).2.2.2.2 2 (by decide) (by decide),
    (getNextFriday_spec 2).2.2.2.1 (by decide)⟩

/-- Claim C6: `isDateInPeriod` is the inclusive membership test
`start <= date <= end` on the parsed instants; `'2024-02-02'` is in
`{start:'2024-02-02', end:'2024-03-02'}` and `'2024-02-01'` is not. -/
theorem isDateInPeriod_spec :
    (∀ (date : String) (p : DatePeriod),
      isDateInPeriod date p = true ↔
        parseISO p.start ≤ parseISO date ∧ parseISO date ≤ parseISO p.«end») ∧
    isDateInPeriod "2024-02-02" ⟨"2024-02-02", "2024-03-02"⟩ = true ∧
    isDateInPeriod "2024-02-01" ⟨"2024-02-02", "2024-03-02"⟩ = false := by
  refine ⟨fun date p => ?_, by decide, by decide⟩
  simp [isDateInPeriod]

/-- Witness for C6: the membership characterisation applied at a concrete
date inside the period. -/
theorem isDateInPeriod_spec_witness :
    isDateInPeriod "2024-02-10" ⟨"2024-02-02", "2024-03-02"⟩ = true :=
  (isDateInPeriod_spec.1 "2024-02-10" ⟨"2024-02-02", "2024-03-02"⟩).mpr
    ⟨by decide, by decide⟩

/-- Claim C7: `getWeekNumberByDate` is the ceiling of (days elapsed since
January 1 plus the offset mapping January 1's weekday to
Monday=1..Sunday=7) over 7, and on Jan 3 2024, Jan 31 2024, Feb 23 2024 it
gives 1, 5, 8. -/
theorem getWeekNumberByDate_spec :
    getWeekNumberByDate 2024 1 3 = 1 ∧ getWeekNumberByDate 2024 1 31 = 5 ∧
    getWeekNumberByDate 2024 2 23 = 8 ∧
    ∀ y m d : Nat, getWeekNumberByDate y m d = weekNumberSpec y m d := by
  refine ⟨by decide, by decide, by decide, fun y m d => ?_⟩
  simp only [getWeekNumberByDate, weekNumberSpec, Nat.ceilDiv_eq_add_pred_div]
  omega

/-- Claim C8: `formatDate` does not special-case hour 0: with UTC hour 0
the time field renders as `0:mm:ss AM` (and month, day, hour carry no
leading zero), e.g. hour 0 on 2024-02-01 renders `2/1/2024, 0:05:07 AM`. -/
theorem formatDate_hour0 :
    (∀ month day year minutes seconds : Nat,
      formatDate month day year 0 minutes seconds =
        toString (month + 1) ++ "/" ++ toString day ++ "/" ++ toString year ++ ", " ++
          ("0" ++ ":" ++ pad2 minutes ++ ":" ++ pad2 seconds ++ " AM")) ∧
    formatDate 1 1 2024 0 5 7 = "2/1/2024, 0:05:07 AM" := by
  exact ⟨fun month day year minutes seconds => rfl, by decide⟩

/-- Claim C10: `formatDate` places UTC hour 12 in the PM branch without
subtracting 12 (`12:mm:ss PM`), while hours 13..23 render as `hour - 12`
with PM. -/
theorem formatDate_pm :
    (∀ month day year minutes seconds : Nat,
      formatDate month day year 12 minutes seconds =
        toString (month + 1) ++ "/" ++ toString day ++ "/" ++ toString year ++ ", " ++
          ("12" ++ ":" ++ pad2 minutes ++ ":" ++ pad2 seconds ++ " PM")) ∧
    (∀ month day year hours minutes seconds : Nat, 13 ≤ hours → hours ≤ 23 →
      formatDate month day year hours minutes seconds =
        toString (month + 1) ++ "/" ++ toString day ++ "/" ++ toString year ++ ", " ++
          (toString (hours - 12) ++ ":" ++ pad2 minutes ++ ":" ++ pad2 seconds ++ " PM")) := by
  constructor
  · intro month day year minutes seconds
    rfl
  · intro month day year hours minutes seconds h13 h23
    have h : hours > 12 := by omega
    simp only [formatDate, if_pos h]

/-- Witness for C10: noon renders as `12:00:00 PM` and 22:59 renders as
`10:59:00 PM` on concrete dates. -/
theorem formatDate_pm_witness :
    formatDate 1 1 2024 12 0 0 = "2/1/2024, 12:00:00 PM" ∧
    formatDate 11 15 2010 22 59 0 = "12/15/2010, 10:59:00 PM" := by
  constructor
  · rw [formatDate_pm.1 1 1 2024 0 0]
    decide
  · rw [formatDate_pm.2 11 15 2010 22 59 0 (by decide) (by decide)]
    decide

set_option maxRecDepth 100000 in
/-- Claim C1 (code bug): the scan of `getNextFridayThe13th` starts at the
input's WEEKDAY (`getDay`), not its day-of-month, so from 2024-09-20 it
returns 2024-09-13, a Friday the 13th strictly BEFORE the input; from
2024-01-13 it does yield 2024-09-13 as documented. -/
theorem getNextFridayThe13th_bug :
    getNextFridayThe13th (ratadie 2024 9 20) = some (ratadie 2024 9 13) ∧
    ratadie 2024 9 13 < ratadie 2024 9 20 ∧
    jsDay (ratadie 2024 9 13) = 5 ∧ jsDate (ratadie 2024 9 13) = 13 ∧
    getNextFridayThe13th (ratadie 2024 1 13) = some (ratadie 2024 9 13) := by
  exact ⟨by decide, by decide, by decide, by decide, by decide⟩

end CoreJsDates
